import Mathlib

/-!
Verification development for an SDN simulation (a switch forwarding packets
according to a controller-managed routing table, with filters, per-flow
policies and mobility redirects).

Python dictionaries are modelled as association lists (`Dict α β`), which
preserve insertion order exactly like Python dicts: updating an existing key
keeps its position, inserting a fresh key appends at the end.  Fallible
Python code (raising `IndexError`, `KeyError`, `ValueError`) is modelled
with `Except Unit` or an explicit `raised` flag.  IP addresses are modelled
by their integer value (`ipaddress.ip_address` objects compare by integer
value); output-port identifiers are natural numbers.
-/

set_option autoImplicit false

universe u v

/-- Association-list model of a Python `dict`. -/
abbrev Dict (α : Type u) (β : Type v) : Type (max u v) := List (α × β)

namespace Dict

variable {α : Type u} {β : Type v} [DecidableEq α]

/-- Lookup `d.get(k)` / `d[k]` (as an `Option`). -/
def dGet : Dict α β → α → Option β
  | [], _ => none
  | (k, v) :: rest, a => if k = a then some v else dGet rest a

/-- Update `d[k] = v`: replaces the value in place if the key exists (keeping its
position, as Python dicts do), otherwise appends the new binding. -/
def dInsert : Dict α β → α → β → Dict α β
  | [], a, b => [(a, b)]
  | (k, v) :: rest, a, b =>
    if k = a then (k, b) :: rest else (k, v) :: dInsert rest a b

/-- Deletion `del d[k]` (the existence check is done by callers). -/
def dErase (m : Dict α β) (a : α) : Dict α β :=
  m.filter (fun kv => kv.1 ≠ a)

/-- The keys `list(d)` in insertion order. -/
def keys (m : Dict α β) : List α := m.map Prod.fst

end Dict

open Dict

/-- A forwarding rule: `{OUTPUT_LINK: ..., ACTIVE: ...}` (`lib.install`,
`lib.add_rule_for`). -/
structure Rule where
  outlink : Nat
  active : Bool
deriving DecidableEq, Repr

/-- The packet payload `{DEST_PORT: ..., OP: ...}` built by the producers. -/
structure Payload where
  dest_port : Nat
  op : String
deriving DecidableEq, Repr

/-- A packet `{SRC_ADDR: ..., DST_ADDR: ..., PAYLOAD: ...}`. -/
structure Packet where
  src : Nat
  dst : Nat
  payload : Payload
deriving DecidableEq, Repr

/-- Result of `lib.install`: the final contents of the (mutated) `ftable`
argument together with whether the call raised `IndexError`. -/
structure InstallResult where
  table : Dict Nat Rule
  raised : Bool

/-- The `for addr in network:` loop of `lib.install`: the running index `i`
starts at 0, is incremented after each rule and reset to 0 once it reaches
`len(interfaces)`.  `interfaces[i]` raises `IndexError` (modelled by
`raised := true`) when the interface list is empty. -/
def installLoop (interfaces : List Nat) : List Nat → Nat → Dict Nat Rule → InstallResult
  | [], _, acc => ⟨acc, false⟩
  | addr :: rest, i, acc =>
    match interfaces.get? i with
    | none => ⟨acc, true⟩
    | some p =>
      installLoop interfaces rest
        (if i + 1 ≥ interfaces.length then 0 else i + 1)
        (dInsert acc addr ⟨p, true⟩)

/-- Model of `lib.install(interfaces, network, ftable)`.  The body first executes
`ftable.clear()`, then the guard `if (n == 0 | len(network) == 0)`.  Because
`|` binds tighter than `==` in Python, that guard parses as the chained
comparison `n == (0 | len(network)) == 0`, i.e. it raises only when *both*
lists are empty.  The subsequent loop assigns interface `i mod n` to each
address in order. -/
def install (interfaces network : List Nat) (_ftable : Dict Nat Rule) : InstallResult :=
  if interfaces.length = network.length ∧ network.length = 0 then ⟨[], true⟩
  else installLoop interfaces network 0 []

/-- Model of `lib.__util(addr, ftab, val)`: set the `ACTIVE` flag of the rule for
`addr`, or raise `ValueError` when there is none (a present rule is a
non-empty dict, hence truthy). -/
def util_set (addr : Nat) (ftab : Dict Nat Rule) (val : Bool) :
    Except Unit (Dict Nat Rule) :=
  match dGet ftab addr with
  | some r => .ok (dInsert ftab addr { r with active := val })
  | none => .error ()

/-- Model of `lib.drop(addr, ftab)`: mark a rule as not active. -/
def dropRule (addr : Nat) (ftab : Dict Nat Rule) : Except Unit (Dict Nat Rule) :=
  util_set addr ftab false

/-- Model of `lib.reactivate(addr, ftab)`: mark a rule as active. -/
def reactivate (addr : Nat) (ftab : Dict Nat Rule) : Except Unit (Dict Nat Rule) :=
  util_set addr ftab true

/-- Model of `lib.delete(addr, ftab)`: `del ftab[addr]`, raising `KeyError` when the
key is absent. -/
def delete (addr : Nat) (ftab : Dict Nat Rule) : Except Unit (Dict Nat Rule) :=
  match dGet ftab addr with
  | some _ => .ok (dErase ftab addr)
  | none => .error ()

/-- Model of `lib.add_rule_for(newaddr, interfaces, ftab)`: raises `IndexError` on an
empty interface list, otherwise adds an active rule towards `interfaces[0]`. -/
def add_rule_for (newaddr : Nat) (interfaces : List Nat) (ftab : Dict Nat Rule) :
    Except Unit (Dict Nat Rule) :=
  if interfaces.length = 0 then .error ()
  else .ok (dInsert ftab newaddr ⟨interfaces.headD 0, true⟩)

/-- Keys of the per-flow policy dictionary: the distinguished
`Strings.POLICIES` key holding the global default quota, and
`(source, destination)` pairs. -/
inductive PKey
  | defaultKey
  | flow (src dst : Nat)
deriving DecidableEq, Repr

/-- The policy dictionary: remaining `(reads, writes)` per key. -/
abbrev PolicyDict : Type := Dict PKey (Nat × Nat)

/-- Model of `lib.install_policy(ptable, max_read, max_write)`: `ptable.clear()` then
`ptable[Strings.POLICIES] = (max_read, max_write)`; the result is the new
contents of `ptable`. -/
def install_policy (max_read max_write : Nat) : PolicyDict :=
  [(.defaultKey, (max_read, max_write))]

/-- Model of `lib.mobility(rules, from_addr, to_addr)`: `rules[from_addr] = to_addr`. -/
def mobility (rules : Dict Nat Nat) (from_addr to_addr : Nat) : Dict Nat Nat :=
  dInsert rules from_addr to_addr

/-- A Python value returned by a candidate filter when probed: either a
proper boolean or some non-boolean value (the only non-boolean the code
returns is the integer `0`). -/
inductive PyVal
  | vBool (b : Bool)
  | vInt (n : Int)
deriving DecidableEq, Repr

/-- Outcome of calling a candidate filter on a packet: it either returns a
value or raises (wrong arity and in-body exceptions both surface as a raise
at the call site). -/
inductive CallResult
  | ret (v : PyVal)
  | exn
deriving DecidableEq, Repr

/-- A candidate filter: an arbitrary Python callable, observed through what
calling it on a packet does. -/
structure Candidate where
  call : Packet → CallResult

/-- Python truthiness of a filter's return value, as used by
`if filter(pkt):` in the switch. -/
def truthy : PyVal → Bool
  | .vBool b => b
  | .vInt n => n ≠ 0

/-- The fixed probe packet of `lib.install_filter`:
`{SRC_ADDR: ip('127.0.0.1'), DST_ADDR: ip('127.0.0.1'),
PAYLOAD: {DEST_PORT: 80, OP: 'o'}}` (127.0.0.1 = 2130706433). -/
def test_packet : Packet :=
  { src := 2130706433, dst := 2130706433, payload := { dest_port := 80, op := "o" } }

/-- Model of `lib.install_filter(filtable, fun)`: call the candidate once on
`test_packet`; if the call returns a `bool` without raising, prepend it
(`filtable.insert(0, fun)`) and report `True`, otherwise leave the chain
unchanged and report `False`. -/
def install_filter (filtable : List Candidate) (f : Candidate) :
    Bool × List Candidate :=
  match f.call test_packet with
  | .ret (.vBool _) => (true, f :: filtable)
  | .ret _ => (false, filtable)
  | .exn => (false, filtable)

/-- The quota resolution at the top of `Switch.start.enforce_policies`:
`try: ... = self.policies[(src, dst)] except KeyError: ... =
self.policies[Strings.POLICIES]`.  `none` means both lookups raised
`KeyError`. -/
def resolveQuota (policies : PolicyDict) (packet : Packet) : Option (Nat × Nat) :=
  match dGet policies (.flow packet.src packet.dst) with
  | some q => some q
  | none => dGet policies .defaultKey

/-- Rejection reason strings of `enforce_policies` (\x27 is the apostrophe,
e.g. `max no. of 'READ's exceeded`). -/
def readsMsg : String := "max no. of \x27READ\x27s exceeded"

def writesMsg : String := "max no. of \x27WRITE\x27s exceeded"

def bothMsg : String := "max no. of \x27READ\x27s and \x27WRITE\x27s exceeded"

/-- Model of `Switch.start.enforce_policies(packet)`: resolve the flow's remaining
quota, then branch on the payload operation; accepted consuming operations
persist the decremented quota under the `(src, dst)` key.  The result pairs
the returned `(motivation, allowed)` with the new contents of
`self.policies`; `.error` is the unhandled `KeyError` when neither the flow
entry nor the default quota exists. -/
def enforce_policies (policies : PolicyDict) (packet : Packet) :
    Except Unit ((Option String × Bool) × PolicyDict) :=
  match resolveQuota policies packet with
  | none => .error ()
  | some (rem_r, rem_w) =>
    let fkey : PKey := .flow packet.src packet.dst
    let op := packet.payload.op
    if op = "r" then
      if rem_r > 0 then
        .ok ((none, true), dInsert policies fkey (rem_r - 1, rem_w))
      else
        .ok ((some readsMsg, false), policies)
    else if op = "w" then
      if rem_w > 0 then
        .ok ((none, true), dInsert policies fkey (rem_r, rem_w - 1))
      else
        .ok ((some writesMsg, false), policies)
    else if op = "rw" then
      if rem_r > 0 ∧ rem_w > 0 then
        .ok ((none, true), dInsert policies fkey (rem_r - 1, rem_w - 1))
      else if rem_r > 0 then
        .ok ((some writesMsg, false), policies)
      else if rem_w > 0 then
        .ok ((some readsMsg, false), policies)
      else
        .ok ((some bothMsg, false), policies)
    else
      .ok ((none, true), policies)

/-- Run `enforce_policies` over a sequence of packets, collecting each
packet's `(motivation, allowed)` outcome and threading the policy table.  An
unhandled `KeyError` aborts the sequence (the switch thread would crash). -/
def runPolicySeq (policies : PolicyDict) : List Packet → List (Option String × Bool) × PolicyDict
  | [] => ([], policies)
  | p :: rest =>
    match enforce_policies policies p with
    | .error _ => ([], policies)
    | .ok (res, pol') =>
      (res :: (runPolicySeq pol' rest).1, (runPolicySeq pol' rest).2)

/-- The three intentionally invalid candidate filters and the valid one
created by `Controller.request` at update counter 10.  `bad_function1` takes
no arguments, so calling it with the probe packet raises `TypeError`;
`bad_function2` returns the integer `0`; `bad_function3` evaluates
`pkt.pop()`, which raises `TypeError` on a dict (`dict.pop` needs a key
argument); `good_function` returns `pkt[PAYLOAD][DEST_PORT] < 450`. -/
def bad_function1 : Candidate := ⟨fun _ => .exn⟩

def bad_function2 : Candidate := ⟨fun _ => .ret (.vInt 0)⟩

def bad_function3 : Candidate := ⟨fun _ => .exn⟩

def good_function : Candidate :=
  ⟨fun pkt => .ret (.vBool (decide (pkt.payload.dest_port < 450)))⟩

/-- Requests a switch can send to the controller (`Strings.NEW_TABLE`,
`Strings.NEW_RULE`, `Strings.UPDATE`), with the `data` each carries. -/
inductive ReqType
  | newTable (ports : Nat)
  | newRule (which : Nat) (ports : Nat)
  | updateReq
deriving DecidableEq, Repr

/-- A controller response (`RESP_TYPE` plus the deep-copied `RESP_DATA`). -/
inductive Resp
  | newTable (t : Dict Nat Rule)
  | updatedTable (t : Dict Nat Rule)
  | policiesR (p : PolicyDict)
  | filtersR (fs : List Candidate)
  | mobilityR (m : Dict Nat Nat)
  | endR
  | nop

/-- Sorting `sorted(list(ftab))`: the keys of the table in ascending order
(insertion sort). -/
def insertSorted (a : Nat) : List Nat → List Nat
  | [] => [a]
  | b :: rest => if a ≤ b then a :: b :: rest else b :: insertSorted a rest

def sortedKeys (tab : Dict Nat Rule) : List Nat :=
  (Dict.keys tab).foldr insertSorted []

/-- The `Controller` object's state: the known network, the update counter
(`requested_updates`, starting at -1), the retained last-sent table, the
controller-side filter list and redirect map, and the optional fixed targets
(`optargs`).  When `optargs` is false the `todrop`/`todelete`/`redirect_*`
attributes are unset until first assigned; since every branch assigns them
before reading them, they are modelled as plain fields. -/
structure Controller where
  network : List Nat
  requested_updates : Int
  last_sent_ftab : Dict Nat Rule
  filters : List Candidate
  redirects : Dict Nat Nat
  optargs : Bool
  todrop : Nat
  todelete : Nat
  redirect_from : Nat
  redirect_to : Nat

/-- Constructor `Controller.__init__(network)` without optional arguments. -/
def mkController (network : List Nat) : Controller :=
  { network := network, requested_updates := -1, last_sent_ftab := [],
    filters := [], redirects := [], optargs := false,
    todrop := 0, todelete := 0, redirect_from := 0, redirect_to := 0 }

/-- Model of `Controller.request(type, resp_list, data)`.  Returns the new controller
state and the response appended to `resp_list` (at most one); `.error` is an
uncaught Python exception escaping from the handler (`IndexError` from
`install`/`add_rule_for`/`sorted(...)[0]`, `ValueError` from
`drop`/`reactivate`, `KeyError` from `delete`). -/
def Controller.request (c : Controller) (t : ReqType) :
    Except Unit (Controller × Option Resp) :=
  match t with
  | .newTable ports =>
    let r := install (List.range ports) c.network c.last_sent_ftab
    if r.raised then .error ()
    else .ok ({ c with last_sent_ftab := r.table }, some (.newTable r.table))
  | .newRule which ports =>
    match add_rule_for which (List.range ports) c.last_sent_ftab with
    | .error _ => .error ()
    | .ok tab => .ok ({ c with last_sent_ftab := tab }, some (.updatedTable tab))
  | .updateReq =>
    let n := c.requested_updates + 1
    let c := { c with requested_updates := n }
    if n = 2 then
      match (if c.optargs then some c.todrop else (sortedKeys c.last_sent_ftab).head?) with
      | none => .error ()
      | some a =>
        let c := { c with todrop := a }
        match dropRule a c.last_sent_ftab with
        | .error _ => .error ()
        | .ok tab => .ok ({ c with last_sent_ftab := tab }, some (.updatedTable tab))
    else if n = 4 then
      match (if c.optargs then some c.todrop else (sortedKeys c.last_sent_ftab).head?) with
      | none => .error ()
      | some a =>
        let c := { c with todrop := a }
        match reactivate a c.last_sent_ftab with
        | .error _ => .error ()
        | .ok tab => .ok ({ c with last_sent_ftab := tab }, some (.updatedTable tab))
    else if n = 6 then
      match (if c.optargs then some c.todelete else (sortedKeys c.last_sent_ftab).head?) with
      | none => .error ()
      | some a =>
        let c := { c with todelete := a }
        match delete a c.last_sent_ftab with
        | .error _ => .error ()
        | .ok tab => .ok ({ c with last_sent_ftab := tab }, some (.updatedTable tab))
    else if n = 8 then
      .ok (c, some (.policiesR (install_policy 3 3)))
    else if n = 10 then
      let f0 := c.filters
      let f1 := (install_filter f0 bad_function1).2
      let f2 := (install_filter f1 bad_function2).2
      let f3 := (install_filter f2 bad_function3).2
      let f4 := (install_filter f3 good_function).2
      .ok ({ c with filters := f4 }, some (.filtersR f4))
    else if n = 12 then
      match (if c.optargs then some (c.redirect_from, c.redirect_to)
             else
               match sortedKeys c.last_sent_ftab with
               | [] => none
               | ks => some (ks.headD 0, ks.getLastD 0)) with
      | none => .error ()
      | some (rf, rt) =>
        let rds := mobility c.redirects rf rt
        .ok ({ c with redirect_from := rf, redirect_to := rt, redirects := rds },
             some (.mobilityR rds))
    else if n = 21 then
      .ok (c, some .endR)
    else
      .ok (c, some .nop)

/-- Feed a list of requests to the controller, one after the other
(discarding the responses); `.error` if any request raises. -/
def runRequests (c : Controller) : List ReqType → Except Unit Controller
  | [] => .ok c
  | t :: rest =>
    match c.request t with
    | .error _ => .error ()
    | .ok (c', _) => runRequests c' rest

/-- An item in an output-port queue: a forwarded packet or the literal
`"STOP"` sentinel pushed at shutdown. -/
inductive OutItem
  | pkt (p : Packet)
  | stop
deriving DecidableEq, Repr

/-- The `Switch` object's state.  The inbound queue holds `(inport, packet)`
pairs put by `put_packet`; the termination sentinel is `(-1, none)`.
`policies`, `filters` and `redirects` start as `None` (`Option`); note that
Python truthiness also treats an *empty* list/dict as false. -/
structure SwState where
  inqueue : List (Int × Option Packet)
  outports : List (List OutItem)
  ftab : Dict Nat Rule
  policies : Option PolicyDict
  filters : Option (List Candidate)
  redirects : Option (Dict Nat Nat)
  responses : List Resp
  dropped : List (Packet × String)
  endF : Bool
  ctrl : Controller

/-- Python truthiness of an optional list-like attribute:
`if self.filters:` is false both for `None` and for an empty list/dict. -/
def optTruthy {α : Type u} : Option (List α) → Bool
  | none => false
  | some l => !l.isEmpty

/-- One response being applied to the switch state by `Switch.start.update`. -/
def applyResp (st : SwState) (r : Resp) : SwState :=
  match r with
  | .newTable t => { st with ftab := t }
  | .updatedTable t => { st with ftab := t }
  | .policiesR p => { st with policies := some p }
  | .filtersR fs => { st with filters := some fs }
  | .mobilityR m => { st with redirects := some m }
  | .endR => { st with endF := true }
  | .nop => st

/-- Model of `Switch.start.update()`: pop and apply every pending response in order
(the Python function recurses until `self.responses` is empty). -/
def updateAll (st : SwState) : SwState :=
  st.responses.foldl applyResp { st with responses := [] }

/-- Outcome of the filter stage `for filter in self.filters: if filter(pkt):`.
`ferror` is an exception raised by a filter call (it would crash the switch
thread). -/
inductive FilterOutcome
  | fpass
  | fdrop
  | ferror
deriving DecidableEq, Repr

def runFilters (fs : List Candidate) (pkt : Packet) : FilterOutcome :=
  match fs with
  | [] => .fpass
  | f :: rest =>
    match f.call pkt with
    | .exn => .ferror
    | .ret v => if truthy v then .fdrop else runFilters rest pkt

/-- The filter stage, guarded by `if self.filters:` (truthiness). -/
def filterStage (st : SwState) (pkt : Packet) : FilterOutcome :=
  if optTruthy st.filters then runFilters (st.filters.getD []) pkt else .fpass

/-- The mobility stage: `destination = pkt[DST_ADDR]`, then
`if self.redirects and destination in self.redirects.keys(): destination =
self.redirects[destination]`.  Applied once, never chained. -/
def effDest (st : SwState) (pkt : Packet) : Nat :=
  if optTruthy st.redirects then
    match dGet (st.redirects.getD []) pkt.dst with
    | some d => d
    | none => pkt.dst
  else pkt.dst

/-- Model of `self.outports[out].put(x)`: append at the tail of output queue `out`;
`none` is the `IndexError` when `out` is not a valid queue index. -/
def putOut (qs : List (List OutItem)) (idx : Nat) (x : OutItem) :
    Option (List (List OutItem)) :=
  if h : idx < qs.length then some (qs.set idx (qs.get ⟨idx, h⟩ ++ [x])) else none

/-- The per-packet pipeline of `Switch.start` (the body of the `else` branch
after a non-sentinel packet has been popped from the inbound queue): filter
stage, mobility stage, table lookup, policy stage, forwarding; on a lookup
miss, requeue `(port, pkt)` and send a `NEW_RULE` request to the controller.
Returns the new state together with the list of controller requests issued;
`.error` is any uncaught Python exception. -/
def processPacket (st : SwState) (port : Int) (pkt : Packet) :
    Except Unit (SwState × List ReqType) :=
  match filterStage st pkt with
  | .ferror => .error ()
  | .fdrop => .ok ({ st with dropped := st.dropped ++ [(pkt, "filtered")] }, [])
  | .fpass =>
    match dGet st.ftab (effDest st pkt) with
    | some rule =>
      if rule.active then
        if optTruthy st.policies then
          match enforce_policies (st.policies.getD []) pkt with
          | .error _ => .error ()
          | .ok ((motivation, cont), pol') =>
            if cont then
              match putOut st.outports rule.outlink (.pkt pkt) with
              | none => .error ()
              | some qs => .ok ({ st with policies := some pol', outports := qs }, [])
            else
              .ok ({ st with
                       policies := some pol'
                       dropped := st.dropped ++ [(pkt, motivation.getD "")] }, [])
        else
          match putOut st.outports rule.outlink (.pkt pkt) with
          | none => .error ()
          | some qs => .ok ({ st with outports := qs }, [])
      else
        .ok ({ st with dropped := st.dropped ++ [(pkt, "inactive link")] }, [])
    | none =>
      match st.ctrl.request (.newRule (effDest st pkt) st.outports.length) with
      | .error _ => .error ()
      | .ok (c', r) =>
        .ok ({ st with
                 inqueue := st.inqueue ++ [(port, some pkt)]
                 ctrl := c'
                 responses := st.responses ++ r.toList },
             [.newRule (effDest st pkt) st.outports.length])

/-- Outcome of one iteration of the main `while not self.end:` loop. -/
inductive StepOut
  | next (st : SwState)
  | blocked
  | crashed

/-- One iteration of the main loop, for cycle counter `i`: every third cycle
(except cycle 0) sends an `UPDATE` request; otherwise apply pending
responses, pop a packet (blocking on an empty queue), recognise the
termination sentinel `(-1, None)`, and run the packet pipeline. -/
def cycle (st : SwState) (i : Nat) : StepOut :=
  if 0 < i ∧ i % 3 = 0 then
    match st.ctrl.request .updateReq with
    | .error _ => .crashed
    | .ok (c', r) => .next { st with ctrl := c', responses := st.responses ++ r.toList }
  else
    match (updateAll st).inqueue with
    | [] => .blocked
    | (port, mpkt) :: rest =>
      if port = -1 ∧ mpkt = none then
        .next { updateAll st with inqueue := rest, endF := true }
      else
        match mpkt with
        | none => .crashed
        | some pkt =>
          match processPacket { updateAll st with inqueue := rest } port pkt with
          | .error _ => .crashed
          | .ok (st', _) => .next st'

/-- The epilogue after the main loop: `for lis in self.outports:
lis.put("STOP")`. -/
def finish (st : SwState) : SwState :=
  { st with outports := st.outports.map (fun q => q ++ [OutItem.stop]) }

/-- The main loop of `Switch.start`, fuelled: returns `some` final state when
the `while not self.end:` condition fails within `fuel` iterations (followed
by the stop-sentinel epilogue), `none` when the switch blocks, crashes, or
does not terminate within the fuel. -/
def runLoop : Nat → SwState → Nat → Option SwState
  | 0, _, _ => none
  | fuel + 1, st, i =>
    if st.endF then some (finish st)
    else
      match cycle st i with
      | .next st' => runLoop fuel st' (i + 1)
      | _ => none

/-- The remaining quota the spec speaks about: the flow's own entry if
present, otherwise the default quota `dq`. -/
def remaining (pol : PolicyDict) (dq : Nat × Nat) (s t : Nat) : Nat × Nat :=
  (dGet pol (.flow s t)).getD dq

namespace Dict

variable {α : Type u} {β : Type v} [DecidableEq α]

theorem dGet_nil (a : α) : dGet ([] : Dict α β) a = none := rfl

theorem dGet_dInsert_self (m : Dict α β) (a : α) (b : β) :
    dGet (dInsert m a b) a = some b := by
  induction m with
  | nil => simp [dGet, dInsert]
  | cons kv rest ih =>
    obtain ⟨k, v⟩ := kv
    by_cases h : k = a <;> simp [dGet, dInsert, h, ih]

theorem dGet_dInsert_ne (m : Dict α β) (a a' : α) (b : β) (h : a ≠ a') :
    dGet (dInsert m a b) a' = dGet m a' := by
  induction m with
  | nil => simp [dGet, dInsert, h]
  | cons kv rest ih =>
    obtain ⟨k, v⟩ := kv
    by_cases hk : k = a
    · subst hk
      simp [dGet, dInsert, h]
    · simp only [dInsert, if_neg hk, dGet]
      by_cases hk' : k = a' <;> simp [hk', ih]

theorem dInsert_of_dGet_none (m : Dict α β) (a : α) (b : β)
    (h : dGet m a = none) : dInsert m a b = m ++ [(a, b)] := by
  induction m with
  | nil => simp [dInsert]
  | cons kv rest ih =>
    obtain ⟨k, v⟩ := kv
    by_cases hk : k = a
    · simp [dGet, hk] at h
    · simp only [dGet, if_neg hk] at h
      simp [dInsert, hk, ih h]

theorem dGet_append (m₁ m₂ : Dict α β) (a : α) :
    dGet (m₁ ++ m₂) a =
      match dGet m₁ a with
      | some v => some v
      | none => dGet m₂ a := by
  induction m₁ with
  | nil => simp [dGet]
  | cons kv rest ih =>
    obtain ⟨k, v⟩ := kv
    by_cases hk : k = a <;> simp [dGet, hk, ih]

end Dict

theorem installLoop_spec (interfaces : List Nat) :
    ∀ (network : List Nat) (i : Nat) (acc : Dict Nat Rule),
      i < interfaces.length → network.Nodup →
      (∀ a ∈ network, dGet acc a = none) →
      installLoop interfaces network i acc =
        ⟨acc ++ network.mapIdx
            (fun n a => (a, ⟨interfaces.getD ((i + n) % interfaces.length) 0, true⟩)),
          false⟩ := by
  intro network
  induction network with
  | nil => intro i acc _ _ _; simp [installLoop]
  | cons a rest ih =>
    intro i acc hi hnd hdisj
    have hm : 0 < interfaces.length := Nat.lt_of_le_of_lt (Nat.zero_le i) hi
    have hget : interfaces.get? i = some (interfaces.getD i 0) := by
      rw [List.get?_eq_getElem?, List.getElem?_eq_getElem hi, List.getD_eq_getElem interfaces 0 hi]
    have hins : dInsert acc a ⟨interfaces.getD i 0, true⟩
        = acc ++ [(a, ⟨interfaces.getD i 0, true⟩)] :=
      dInsert_of_dGet_none acc a _ (hdisj a (by simp))
    have hwrap : (if i + 1 ≥ interfaces.length then 0 else i + 1) = (i + 1) % interfaces.length := by
      by_cases h : i + 1 ≥ interfaces.length
      · have : i + 1 = interfaces.length := Nat.le_antisymm hi h
        simp [h, this]
      · simp [h, Nat.mod_eq_of_lt (Nat.lt_of_not_le h)]
    have hwraplt : (i + 1) % interfaces.length < interfaces.length := Nat.mod_lt _ hm
    have hdisj' : ∀ b ∈ rest, dGet (acc ++ [(a, (⟨interfaces.getD i 0, true⟩ : Rule))]) b = none := by
      intro b hb
      rw [dGet_append]
      have h1 : dGet acc b = none := hdisj b (by simp [hb])
      have hba : a ≠ b := by
        rintro rfl
        exact (List.nodup_cons.mp hnd).1 hb
      simp [h1, dGet, hba]
    have hnd' : rest.Nodup := (List.nodup_cons.mp hnd).2
    rw [installLoop, hget]
    simp only
    rw [hins, hwrap, ih ((i + 1) % interfaces.length) _ hwraplt hnd' hdisj']
    have hfun : (fun (n : Nat) (b : Nat) =>
        ((b, ⟨interfaces.getD (((i + 1) % interfaces.length + n) % interfaces.length) 0, true⟩) : Nat × Rule))
        = fun n b => (b, ⟨interfaces.getD ((i + (n + 1)) % interfaces.length) 0, true⟩) := by
      funext n b
      rw [Nat.mod_add_mod]
      have harg : i + 1 + n = i + (n + 1) := by omega
      rw [harg]
    rw [hfun, List.mapIdx_cons, List.append_assoc]
    simp only [List.singleton_append]
    congr 3
    simp [Nat.mod_eq_of_lt hi]
theorem installLoop_not_raised (interfaces : List Nat) :
    ∀ (network : List Nat) (i : Nat) (acc : Dict Nat Rule),
      i < interfaces.length → (installLoop interfaces network i acc).raised = false := by
  intro network
  induction network with
  | nil => intro i acc _; rfl
  | cons a rest ih =>
    intro i acc hi
    have hget : interfaces.get? i = some (interfaces.getD i 0) := by
      rw [List.get?_eq_getElem?, List.getElem?_eq_getElem hi, List.getD_eq_getElem interfaces 0 hi]
    rw [installLoop, hget]
    simp only
    apply ih
    by_cases h : i + 1 ≥ interfaces.length
    · simp [h, Nat.lt_of_le_of_lt (Nat.zero_le i) hi]
    · simp [h, Nat.lt_of_not_le h]

theorem install_nil_interfaces_table (network : List Nat) (ftable : Dict Nat Rule) :
    (install [] network ftable).table = [] := by
  cases network <;> simp [install, installLoop]

/-- C1. For every non-empty list of output-port identifiers, every
non-empty duplicate-free list of destination addresses and every prior table
contents, `install` replaces the table by one whose keys are exactly the
given addresses in order, whose `n`-th rule forwards to output port
`n mod m` (`m` the number of ports), with every rule active — and it does
not raise. -/
theorem install_round_robin (interfaces network : List Nat) (ftable : Dict Nat Rule)
    (h1 : 0 < interfaces.length) (h2 : 0 < network.length) (hnd : network.Nodup) :
    install interfaces network ftable =
      ⟨network.mapIdx
          (fun n a => (a, ⟨interfaces.getD (n % interfaces.length) 0, true⟩)),
        false⟩ := by
  rw [install]
  have hcond : ¬(interfaces.length = network.length ∧ network.length = 0) := by omega
  rw [if_neg hcond]
  rw [installLoop_spec interfaces network 0 [] h1 hnd (fun a _ => rfl)]
  simp

/-- Witness for C1: installing over ports `[10, 20]` and network `[1, 2, 3]`
(on top of a stale table) yields `1 → 10, 2 → 20, 3 → 10`, all active. -/
theorem install_round_robin_witness :
    install [10, 20] [1, 2, 3] [(9, ⟨0, false⟩)] =
      ⟨[(1, ⟨10, true⟩), (2, ⟨20, true⟩), (3, ⟨10, true⟩)], false⟩ := by
  rw [install_round_robin [10, 20] [1, 2, 3] [(9, ⟨0, false⟩)]
    (by decide) (by decide) (by decide)]
  rfl

/-- C8. Failing input for the claim that `install` raises whenever either
list is empty: with a non-empty port list and an *empty* network list the
mis-parenthesised guard `n == 0 | len(network) == 0` is false and the loop
body never runs, so `install` returns normally (having still cleared the
table) instead of raising `IndexError` as its docstring promises. -/
theorem install_empty_network_no_raise :
    install [0] [] [(7, ⟨3, true⟩)] = ⟨[], false⟩ := rfl

/-- C10. `install` clears the table before any validation or write: its
result is independent of the prior table contents, and whenever it raises,
the table it leaves behind is empty (failure is not atomic). -/
theorem install_not_atomic (interfaces network : List Nat) (ftable : Dict Nat Rule) :
    install interfaces network ftable = install interfaces network [] ∧
    ((install interfaces network ftable).raised = true →
      (install interfaces network ftable).table = []) := by
  refine ⟨rfl, ?_⟩
  intro hr
  match interfaces with
  | [] => exact install_nil_interfaces_table network ftable
  | p :: ps =>
    rw [install] at hr ⊢
    have hcond : ¬((p :: ps).length = network.length ∧ network.length = 0) := by
      simp only [List.length_cons]
      omega
    rw [if_neg hcond] at hr ⊢
    rw [installLoop_not_raised (p :: ps) network 0 [] (by simp)] at hr
    exact absurd hr (by simp)

/-- Witness for C10: a raising call (both lists empty) leaves a previously
populated table empty. -/
theorem install_not_atomic_witness :
    (install [] [] [(5, ⟨1, true⟩)]).table = [] :=
  (install_not_atomic [] [] [(5, ⟨1, true⟩)]).2 rfl

/-- C2. Failing run for the claim that the address deactivated at update
counter 2 is resolved once and reactivated at counter 4: with network `[2]`
and no fixed targets, after `NEW_TABLE`, three updates (counter 2 drops
address 2), a `NEW_RULE` for address 1, and two more updates, counter 4
*re-resolves* the target as the sorted-first key — now 1 — and reactivates
the never-dropped address 1, leaving the dropped address 2 inactive. -/
theorem controller_counter4_re_resolves :
    (runRequests (mkController [2])
        [.newTable 1, .updateReq, .updateReq, .updateReq]).map
        (fun c => (c.todrop, dGet c.last_sent_ftab 2)) =
      .ok (2, some ⟨0, false⟩) ∧
    (runRequests (mkController [2])
        [.newTable 1, .updateReq, .updateReq, .updateReq,
         .newRule 1 1, .updateReq, .updateReq]).map
        (fun c => (c.todrop, dGet c.last_sent_ftab 2, dGet c.last_sent_ftab 1)) =
      .ok (1, some ⟨0, false⟩, some ⟨0, true⟩) :=
  ⟨rfl, rfl⟩

/-- C3. Full case analysis of `enforce_policies` in terms of the
resolved remaining quota `(r, w)` (the flow's own entry if present, else the
default): `read` accepts and decrements reads exactly when `r > 0` and is
otherwise rejected for exceeding reads; `write` symmetrically; `read-write`
accepts and decrements both exactly when both are positive, citing the
exhausted counter(s) otherwise; any other operation is accepted without
consuming quota.  In particular, under the default quota (3, 3) four
consecutive reads on one flow succeed three times and the fourth is rejected
for exceeding reads. -/
theorem enforce_policies_spec (policies : PolicyDict) (pkt : Packet) (r w : Nat)
    (hres : resolveQuota policies pkt = some (r, w)) :
    (pkt.payload.op = "r" ∧ 0 < r →
      enforce_policies policies pkt =
        .ok ((none, true), dInsert policies (.flow pkt.src pkt.dst) (r - 1, w))) ∧
    (pkt.payload.op = "r" ∧ r = 0 →
      enforce_policies policies pkt = .ok ((some readsMsg, false), policies)) ∧
    (pkt.payload.op = "w" ∧ 0 < w →
      enforce_policies policies pkt =
        .ok ((none, true), dInsert policies (.flow pkt.src pkt.dst) (r, w - 1))) ∧
    (pkt.payload.op = "w" ∧ w = 0 →
      enforce_policies policies pkt = .ok ((some writesMsg, false), policies)) ∧
    (pkt.payload.op = "rw" ∧ 0 < r ∧ 0 < w →
      enforce_policies policies pkt =
        .ok ((none, true), dInsert policies (.flow pkt.src pkt.dst) (r - 1, w - 1))) ∧
    (pkt.payload.op = "rw" ∧ 0 < r ∧ w = 0 →
      enforce_policies policies pkt = .ok ((some writesMsg, false), policies)) ∧
    (pkt.payload.op = "rw" ∧ r = 0 ∧ 0 < w →
      enforce_policies policies pkt = .ok ((some readsMsg, false), policies)) ∧
    (pkt.payload.op = "rw" ∧ r = 0 ∧ w = 0 →
      enforce_policies policies pkt = .ok ((some bothMsg, false), policies)) ∧
    (pkt.payload.op ≠ "r" ∧ pkt.payload.op ≠ "w" ∧ pkt.payload.op ≠ "rw" →
      enforce_policies policies pkt = .ok ((none, true), policies)) ∧
    (runPolicySeq (install_policy 3 3)
        [⟨1, 2, ⟨80, "r"⟩⟩, ⟨1, 2, ⟨80, "r"⟩⟩, ⟨1, 2, ⟨80, "r"⟩⟩, ⟨1, 2, ⟨80, "r"⟩⟩]).1 =
      [(none, true), (none, true), (none, true), (some readsMsg, false)] := by
  refine ⟨?_, ?_, ?_, ?_, ?_, ?_, ?_, ?_, ?_, rfl⟩
  · rintro ⟨hop, hr⟩
    simp [enforce_policies, hres, hop, hr]
  · rintro ⟨hop, hr⟩
    subst hr
    simp [enforce_policies, hres, hop]
  · rintro ⟨hop, hw⟩
    simp [enforce_policies, hres, hop, hw]
  · rintro ⟨hop, hw⟩
    subst hw
    simp [enforce_policies, hres, hop]
  · rintro ⟨hop, hr, hw⟩
    simp [enforce_policies, hres, hop, hr, hw]
  · rintro ⟨hop, hr, hw⟩
    subst hw
    simp [enforce_policies, hres, hop, hr]
  · rintro ⟨hop, hr, hw⟩
    subst hr
    simp [enforce_policies, hres, hop, hw]
  · rintro ⟨hop, hr, hw⟩
    subst hr; subst hw
    simp [enforce_policies, hres, hop]
  · rintro ⟨h1, h2, h3⟩
    simp [enforce_policies, hres, h1, h2, h3]

/-- Witness for C3: the first read of a fresh flow under the default quota
(3, 3) is accepted and the flow entry is created holding (2, 3). -/
theorem enforce_policies_spec_witness :
    enforce_policies (install_policy 3 3) ⟨1, 2, ⟨80, "r"⟩⟩ =
      .ok ((none, true), [(.defaultKey, (3, 3)), (.flow 1 2, (2, 3))]) := by
  have h :=
    (enforce_policies_spec (install_policy 3 3) ⟨1, 2, ⟨80, "r"⟩⟩ 3 3 rfl).1
      ⟨rfl, by decide⟩
  rw [h]
  rfl

/-- C4. `install_filter` decides success purely from the single probe
call on the fixed canonical `test_packet`: when that call returns a boolean
without raising, it reports success and prepends the candidate (so it is
evaluated before all previously installed predicates); otherwise (non-bool
return or raise) it reports failure and leaves the chain unchanged.  The
Controller's three invalid candidates are rejected and its port-below-450
candidate is accepted. -/
theorem install_filter_spec :
    (∀ (chain : List Candidate) (c : Candidate) (b : Bool),
      c.call test_packet = .ret (.vBool b) →
      install_filter chain c = (true, c :: chain)) ∧
    (∀ (chain : List Candidate) (c : Candidate),
      (∀ b : Bool, c.call test_packet ≠ .ret (.vBool b)) →
      install_filter chain c = (false, chain)) ∧
    (∀ (chain : List Candidate) (c₁ c₂ : Candidate),
      c₁.call test_packet = c₂.call test_packet →
      (install_filter chain c₁).1 = (install_filter chain c₂).1) ∧
    (∀ chain : List Candidate, install_filter chain bad_function1 = (false, chain)) ∧
    (∀ chain : List Candidate, install_filter chain bad_function2 = (false, chain)) ∧
    (∀ chain : List Candidate, install_filter chain bad_function3 = (false, chain)) ∧
    (∀ chain : List Candidate,
      install_filter chain good_function = (true, good_function :: chain)) := by
  refine ⟨?_, ?_, ?_, fun _ => rfl, fun _ => rfl, fun _ => rfl, fun _ => rfl⟩
  · intro chain c b h
    simp [install_filter, h]
  · intro chain c h
    unfold install_filter
    match hc : c.call test_packet with
    | .ret (.vBool b) => exact absurd hc (h b)
    | .ret (.vInt n) => rfl
    | .exn => rfl
  · intro chain c₁ c₂ h
    unfold install_filter
    rw [h]
    match c₂.call test_packet with
    | .ret (.vBool b) => rfl
    | .ret (.vInt n) => rfl
    | .exn => rfl

/-- Witness for C4: installing the valid port-below-450 candidate on an
empty chain succeeds and yields the one-element chain. -/
theorem install_filter_spec_witness :
    install_filter [] good_function = (true, [good_function]) :=
  install_filter_spec.1 [] good_function true rfl

/-- C9, counterexample. Under the freshly installed default policy, the
first policy check of flow `(7, 9)` — a packet with operation `o` — is
accepted but creates *no* per-flow entry: the table is returned unchanged,
refuting the claim that an entry is created the first time a packet of the
flow is policy-checked. -/
theorem policy_no_entry_on_first_check :
    enforce_policies (install_policy 3 3) ⟨7, 9, ⟨80, "o"⟩⟩ =
      .ok ((none, true), install_policy 3 3) ∧
    dGet (install_policy 3 3) (.flow 7 9) = none :=
  ⟨rfl, rfl⟩

theorem resolve_eq_remaining (pol : PolicyDict) (p : Packet) (dq : Nat × Nat)
    (hdef : dGet pol .defaultKey = some dq) :
    resolveQuota pol p = some (remaining pol dq p.src p.dst) := by
  unfold resolveQuota remaining
  cases h : dGet pol (.flow p.src p.dst) <;> simp [h, hdef]

theorem enforce_step_cases (pol : PolicyDict) (p : Packet)
    (res : Option String × Bool) (pol' : PolicyDict)
    (h : enforce_policies pol p = .ok (res, pol')) :
    pol' = pol ∨ ∃ r w, resolveQuota pol p = some (r, w) ∧
      (pol' = dInsert pol (.flow p.src p.dst) (r - 1, w) ∨
       pol' = dInsert pol (.flow p.src p.dst) (r, w - 1) ∨
       pol' = dInsert pol (.flow p.src p.dst) (r - 1, w - 1)) := by
  unfold enforce_policies at h
  cases hres : resolveQuota pol p with
  | none => rw [hres] at h; exact absurd h (by simp)
  | some q =>
    obtain ⟨r, w⟩ := q
    rw [hres] at h
    simp only at h
    split_ifs at h <;>
      simp only [Except.ok.injEq, Prod.mk.injEq] at h <;>
      first
        | exact Or.inl h.2.symm
        | exact Or.inr ⟨r, w, rfl, Or.inl h.2.symm⟩
        | exact Or.inr ⟨r, w, rfl, Or.inr (Or.inl h.2.symm)⟩
        | exact Or.inr ⟨r, w, rfl, Or.inr (Or.inr h.2.symm)⟩

theorem enforce_step_mono (pol : PolicyDict) (p : Packet) (dq : Nat × Nat)
    (res : Option String × Bool) (pol' : PolicyDict)
    (hdef : dGet pol .defaultKey = some dq)
    (h : enforce_policies pol p = .ok (res, pol')) :
    dGet pol' .defaultKey = some dq ∧
    (∀ s t, (remaining pol' dq s t).1 ≤ (remaining pol dq s t).1 ∧
            (remaining pol' dq s t).2 ≤ (remaining pol dq s t).2) ∧
    (∀ s t q, dGet pol (.flow s t) = some q →
      ∃ q', dGet pol' (.flow s t) = some q' ∧ q'.1 ≤ q.1 ∧ q'.2 ≤ q.2) := by
  rcases enforce_step_cases pol p res pol' h with rfl | ⟨r, w, hres, hcase⟩
  · exact ⟨hdef, fun s t => ⟨le_refl _, le_refl _⟩,
      fun s t q hq => ⟨q, hq, le_refl _, le_refl _⟩⟩
  · have hrw : remaining pol dq p.src p.dst = (r, w) := by
      have hr := resolve_eq_remaining pol p dq hdef
      rw [hres] at hr
      exact (Option.some.inj hr).symm
    have main : ∀ nv : Nat × Nat, nv.1 ≤ r → nv.2 ≤ w →
        pol' = dInsert pol (.flow p.src p.dst) nv →
        dGet pol' .defaultKey = some dq ∧
        (∀ s t, (remaining pol' dq s t).1 ≤ (remaining pol dq s t).1 ∧
                (remaining pol' dq s t).2 ≤ (remaining pol dq s t).2) ∧
        (∀ s t q, dGet pol (.flow s t) = some q →
          ∃ q', dGet pol' (.flow s t) = some q' ∧ q'.1 ≤ q.1 ∧ q'.2 ≤ q.2) := by
      rintro nv h1 h2 rfl
      refine ⟨?_, ?_, ?_⟩
      · rw [dGet_dInsert_ne pol (.flow p.src p.dst) .defaultKey nv (by simp)]
        exact hdef
      · intro s t
        by_cases hst : (PKey.flow s t) = (PKey.flow p.src p.dst)
        · obtain ⟨rfl, rfl⟩ : s = p.src ∧ t = p.dst := by
            injection hst with hs ht
            exact ⟨hs, ht⟩
          unfold remaining
          rw [dGet_dInsert_self]
          have : remaining pol dq p.src p.dst = (r, w) := hrw
          unfold remaining at this
          rw [this]
          exact ⟨h1, h2⟩
        · unfold remaining
          rw [dGet_dInsert_ne pol (.flow p.src p.dst) (.flow s t) nv (fun he => hst he.symm)]
          exact ⟨le_refl _, le_refl _⟩
      · intro s t q hq
        by_cases hst : (PKey.flow s t) = (PKey.flow p.src p.dst)
        · obtain ⟨rfl, rfl⟩ : s = p.src ∧ t = p.dst := by
            injection hst with hs ht
            exact ⟨hs, ht⟩
          have hrq : q = (r, w) := by
            unfold remaining at hrw
            rw [hq] at hrw
            simpa using hrw
          refine ⟨nv, dGet_dInsert_self _ _ _, ?_, ?_⟩ <;> rw [hrq] <;> assumption
        · refine ⟨q, ?_, le_refl _, le_refl _⟩
          rw [dGet_dInsert_ne pol (.flow p.src p.dst) (.flow s t) nv (fun he => hst he.symm)]
          exact hq
    rcases hcase with rfl | rfl | rfl
    · exact main (r - 1, w) (Nat.sub_le r 1) (le_refl w) rfl
    · exact main (r, w - 1) (le_refl r) (Nat.sub_le w 1) rfl
    · exact main (r - 1, w - 1) (Nat.sub_le r 1) (Nat.sub_le w 1) rfl

theorem runPolicySeq_cons_snd (pol : PolicyDict) (p : Packet) (rest : List Packet) :
    (runPolicySeq pol (p :: rest)).2 =
      match enforce_policies pol p with
      | .error _ => pol
      | .ok (_, pol') => (runPolicySeq pol' rest).2 := by
  cases h : enforce_policies pol p with
  | error e => simp [runPolicySeq, h]
  | ok pr =>
    obtain ⟨res, pol'⟩ := pr
    simp [runPolicySeq, h]

/-- C9, amended. With the default quota present: it is preserved across
any sequence of policy checks; each flow's remaining quota (its entry if
present, else the default) never increases; an existing flow entry persists
(only ever decremented, never deleted); a per-flow entry exists as soon as a
quota-consuming operation (`r`/`w`/`rw`) of that flow is *accepted*; and the
switch's policy table is replaced only by a `POLICIES` response — every
other controller response leaves it untouched. -/
theorem policy_table_monotone (pol : PolicyDict) (pkts : List Packet) (dq : Nat × Nat)
    (hdef : dGet pol .defaultKey = some dq) :
    dGet (runPolicySeq pol pkts).2 .defaultKey = some dq ∧
    (∀ s t, (remaining (runPolicySeq pol pkts).2 dq s t).1 ≤ (remaining pol dq s t).1 ∧
            (remaining (runPolicySeq pol pkts).2 dq s t).2 ≤ (remaining pol dq s t).2) ∧
    (∀ s t q, dGet pol (.flow s t) = some q →
      ∃ q', dGet (runPolicySeq pol pkts).2 (.flow s t) = some q' ∧
        q'.1 ≤ q.1 ∧ q'.2 ≤ q.2) ∧
    (∀ (pol₁ : PolicyDict) (p : Packet) (mot : Option String) (pol₂ : PolicyDict),
      enforce_policies pol₁ p = .ok ((mot, true), pol₂) →
      (p.payload.op = "r" ∨ p.payload.op = "w" ∨ p.payload.op = "rw") →
      ∃ q, dGet pol₂ (.flow p.src p.dst) = some q) ∧
    (∀ (st : SwState) (resp : Resp), (∀ q, resp ≠ .policiesR q) →
      (applyResp st resp).policies = st.policies) := by
  have creation : ∀ (pol₁ : PolicyDict) (p : Packet) (mot : Option String)
      (pol₂ : PolicyDict),
      enforce_policies pol₁ p = .ok ((mot, true), pol₂) →
      (p.payload.op = "r" ∨ p.payload.op = "w" ∨ p.payload.op = "rw") →
      ∃ q, dGet pol₂ (.flow p.src p.dst) = some q := by
    intro pol₁ p mot pol₂ h hop
    unfold enforce_policies at h
    cases hres : resolveQuota pol₁ p with
    | none => rw [hres] at h; exact absurd h (by simp)
    | some q =>
      obtain ⟨r, w⟩ := q
      rw [hres] at h
      simp only at h
      rcases hop with hop | hop | hop <;>
        simp only [hop] at h <;>
        split_ifs at h <;>
        simp only [Except.ok.injEq, Prod.mk.injEq] at h <;>
        first
          | exact ⟨_, h.2 ▸ dGet_dInsert_self pol₁ (.flow p.src p.dst) _⟩
          | exact absurd h.1.2 (by simp)
  have noReset : ∀ (st : SwState) (resp : Resp), (∀ q, resp ≠ .policiesR q) →
      (applyResp st resp).policies = st.policies := by
    intro st resp hne
    cases resp with
    | policiesR q => exact absurd rfl (hne q)
    | _ => rfl
  induction pkts generalizing pol with
  | nil =>
    exact ⟨hdef, fun s t => ⟨le_refl _, le_refl _⟩,
      fun s t q hq => ⟨q, hq, le_refl _, le_refl _⟩, creation, noReset⟩
  | cons p rest ih =>
    rw [runPolicySeq_cons_snd]
    cases h : enforce_policies pol p with
    | error e =>
      exact ⟨hdef, fun s t => ⟨le_refl _, le_refl _⟩,
        fun s t q hq => ⟨q, hq, le_refl _, le_refl _⟩, creation, noReset⟩
    | ok pr =>
      obtain ⟨res, pol₁⟩ := pr
      obtain ⟨hdef₁, hmono₁, hpers₁⟩ := enforce_step_mono pol p dq res pol₁ hdef h
      obtain ⟨hdefR, hmonoR, hpersR, _, _⟩ := ih pol₁ hdef₁
      refine ⟨hdefR, ?_, ?_, creation, noReset⟩
      · intro s t
        exact ⟨le_trans (hmonoR s t).1 (hmono₁ s t).1,
               le_trans (hmonoR s t).2 (hmono₁ s t).2⟩
      · intro s t q hq
        obtain ⟨q₁, hq₁, h11, h12⟩ := hpers₁ s t q hq
        obtain ⟨q₂, hq₂, h21, h22⟩ := hpersR s t q₁ hq₁
        exact ⟨q₂, hq₂, le_trans h21 h11, le_trans h22 h12⟩

/-- Witness for C9 (amended): after one accepted read of flow `(1, 2)` the
default quota is still `(3, 3)` and the flow's remaining quota has not
increased. -/
theorem policy_table_monotone_witness :
    dGet (runPolicySeq (install_policy 3 3) [⟨1, 2, ⟨80, "r"⟩⟩]).2 .defaultKey =
      some (3, 3) :=
  (policy_table_monotone (install_policy 3 3) [⟨1, 2, ⟨80, "r"⟩⟩] (3, 3) rfl).1

theorem newRule_request_ok (c : Controller) (which n : Nat) (hn : 0 < n) :
    c.request (.newRule which n) =
      .ok ({ c with last_sent_ftab :=
               dInsert c.last_sent_ftab which ⟨(List.range n).headD 0, true⟩ },
           some (.updatedTable
               (dInsert c.last_sent_ftab which ⟨(List.range n).headD 0, true⟩))) := by
  have h0 : n ≠ 0 := Nat.pos_iff_ne_zero.mp hn
  simp [Controller.request, add_rule_for, h0]

theorem processPacket_miss (st : SwState) (port : Int) (pkt : Packet)
    (hf : filterStage st pkt = .fpass)
    (hd : dGet st.ftab (effDest st pkt) = none)
    (hn : 0 < st.outports.length) :
    ∃ st', processPacket st port pkt =
        .ok (st', [.newRule (effDest st pkt) st.outports.length]) ∧
      st'.dropped = st.dropped ∧ st'.outports = st.outports ∧ st'.ftab = st.ftab ∧
      st'.inqueue = st.inqueue ++ [(port, some pkt)] := by
  unfold processPacket
  rw [hf]
  simp only [hd]
  rw [newRule_request_ok st.ctrl (effDest st pkt) st.outports.length hn]
  exact ⟨_, rfl, rfl, rfl, rfl, rfl⟩

theorem putOut_noStop (qs : List (List OutItem)) (idx : Nat) (p : Packet)
    (qs' : List (List OutItem)) (h : putOut qs idx (.pkt p) = some qs')
    (hns : ∀ q ∈ qs, OutItem.stop ∉ q) :
    ∀ q ∈ qs', OutItem.stop ∉ q := by
  unfold putOut at h
  split at h
  next hlt =>
    obtain rfl := Option.some.inj h
    intro q hq
    rcases List.mem_or_eq_of_mem_set hq with hq | rfl
    · exact hns q hq
    · intro hmem
      rcases List.mem_append.mp hmem with hmem | hmem
      · exact hns _ (List.get_mem qs idx hlt) hmem
      · simp at hmem
  next => exact absurd h (by simp)

theorem processPacket_noStop (st : SwState) (port : Int) (pkt : Packet)
    (st' : SwState) (reqs : List ReqType)
    (h : processPacket st port pkt = .ok (st', reqs))
    (hns : ∀ q ∈ st.outports, OutItem.stop ∉ q) :
    ∀ q ∈ st'.outports, OutItem.stop ∉ q := by
  unfold processPacket at h
  repeat
    first
    | exact Except.noConfusion h
    | (obtain ⟨rfl, rfl⟩ := Prod.mk.inj (Except.ok.inj h).symm
       first
         | exact hns
         | exact putOut_noStop st.outports _ pkt _ (by assumption) hns)
    | split at h

theorem applyResp_outports (st : SwState) (r : Resp) :
    (applyResp st r).outports = st.outports := by
  cases r <;> rfl

theorem foldl_applyResp_outports (rs : List Resp) :
    ∀ st : SwState, (rs.foldl applyResp st).outports = st.outports := by
  induction rs with
  | nil => intro st; rfl
  | cons r rest ih =>
    intro st
    rw [List.foldl_cons, ih (applyResp st r), applyResp_outports]

theorem updateAll_outports (st : SwState) :
    (updateAll st).outports = st.outports := by
  unfold updateAll
  rw [foldl_applyResp_outports]

theorem cycle_noStop (st : SwState) (i : Nat) (st' : SwState)
    (h : cycle st i = .next st') (hns : ∀ q ∈ st.outports, OutItem.stop ∉ q) :
    ∀ q ∈ st'.outports, OutItem.stop ∉ q := by
  have hupd : (updateAll st).outports = st.outports := updateAll_outports st
  unfold cycle at h
  repeat
    first
    | exact StepOut.noConfusion h
    | (obtain rfl := StepOut.next.inj h
       first
         | exact hns
         | (intro q hq
            dsimp only at hq
            rw [hupd] at hq
            exact hns q hq)
         | (rename_i heqp
            refine processPacket_noStop _ _ _ _ _ heqp ?_
            show ∀ q ∈ (updateAll st).outports, OutItem.stop ∉ q
            rw [hupd]
            exact hns))
    | split at h

theorem runLoop_stop_sentinel (fuel : Nat) :
    ∀ (st : SwState) (i : Nat) (final : SwState),
      runLoop fuel st i = some final →
      (∀ q ∈ st.outports, OutItem.stop ∉ q) →
      ∀ q ∈ final.outports, ∃ q₀, q = q₀ ++ [OutItem.stop] ∧ OutItem.stop ∉ q₀ := by
  induction fuel with
  | zero => intro st i final hrun; exact absurd hrun (by simp [runLoop])
  | succ fuel ih =>
    intro st i final hrun hns
    rw [runLoop] at hrun
    by_cases he : st.endF
    · rw [if_pos he] at hrun
      obtain rfl := Option.some.inj hrun
      intro q hq
      unfold finish at hq
      dsimp only at hq
      rw [List.mem_map] at hq
      obtain ⟨q₀, hq₀, rfl⟩ := hq
      exact ⟨q₀, rfl, hns q₀ hq₀⟩
    · rw [if_neg he] at hrun
      cases hc : cycle st i with
      | next st' =>
        rw [hc] at hrun
        exact ih st' (i + 1) final hrun (cycle_noStop st i st' hc hns)
      | blocked => rw [hc] at hrun; exact Option.noConfusion hrun
      | crashed => rw [hc] at hrun; exact Option.noConfusion hrun

/-- C5. A processed packet that passes the filter stage and whose
(possibly redirected) lookup destination has no routing-table entry is
neither dropped nor forwarded: the original packet is re-enqueued unchanged
at the tail of the inbound queue, exactly one `NEW_RULE` request for that
destination is issued to the controller, and no exception escapes (the
`KeyError` of the lookup is caught, and with at least one output port the
controller's `add_rule_for` succeeds). -/
theorem lookup_miss_requeues (st : SwState) (port : Int) (pkt : Packet)
    (hf : filterStage st pkt = .fpass)
    (hd : dGet st.ftab (effDest st pkt) = none)
    (hn : 0 < st.outports.length) :
    ∃ st', processPacket st port pkt =
        .ok (st', [.newRule (effDest st pkt) st.outports.length]) ∧
      st'.dropped = st.dropped ∧ st'.outports = st.outports ∧ st'.ftab = st.ftab ∧
      st'.inqueue = st.inqueue ++ [(port, some pkt)] :=
  processPacket_miss st port pkt hf hd hn

/-- Witness for C5: a switch with an empty table and one output port misses
on a packet for destination 2, requeues it and requests a rule for 2. -/
theorem lookup_miss_requeues_witness :
    ∃ st', processPacket
        ⟨[], [[]], [], none, none, none, [], [], false, mkController []⟩
        0 ⟨1, 2, ⟨80, "o"⟩⟩ =
        .ok (st', [.newRule 2 1]) ∧
      st'.dropped = [] ∧ st'.outports = [[]] ∧ st'.ftab = [] ∧
      st'.inqueue = [] ++ [(0, some ⟨1, 2, ⟨80, "o"⟩⟩)] :=
  lookup_miss_requeues
    ⟨[], [[]], [], none, none, none, [], [], false, mkController []⟩
    0 ⟨1, 2, ⟨80, "o"⟩⟩ rfl rfl (by decide)

/-- C6. Whenever the main loop terminates (i.e. the switch reached the
`ENDED` state, by an `END` response or the inbound termination sentinel),
every output-port queue that contained no stop sentinel before ends with
exactly one stop sentinel as its very last element: nothing is ever enqueued
after it. -/
theorem ended_one_stop_sentinel (fuel : Nat) (st : SwState) (i : Nat) (final : SwState)
    (hrun : runLoop fuel st i = some final)
    (hns : ∀ q ∈ st.outports, OutItem.stop ∉ q) :
    ∀ q ∈ final.outports, ∃ q₀, q = q₀ ++ [OutItem.stop] ∧ OutItem.stop ∉ q₀ :=
  runLoop_stop_sentinel fuel st i final hrun hns

/-- Witness for C6: a one-port switch whose inbound queue holds only the
termination sentinel terminates, and its output queue is exactly
`[stop]`. -/
theorem ended_one_stop_sentinel_witness :
    ∃ q₀, [OutItem.stop] = q₀ ++ [OutItem.stop] ∧ OutItem.stop ∉ q₀ :=
  ended_one_stop_sentinel 2
    ⟨[(-1, none)], [[]], [], none, none, none, [], [], false, mkController []⟩ 0
    ⟨[], [[OutItem.stop]], [], none, none, none, [], [], true, mkController []⟩
    (by rfl) (by simp) [OutItem.stop] (by simp)

/-- C7. For a packet whose destination is a key of the (non-empty)
redirect map, the lookup key for all later stages is the mapped destination
`d2` — regardless of whether `d2` itself is a redirect key, i.e. the mapping
is applied exactly once and never chained: a hit on an active rule for `d2`
forwards the *original, unchanged* packet to that rule's output port, and a
miss on `d2` requeues the original packet and requests a new rule for
`d2`. -/
theorem redirect_single_hop (st : SwState) (port : Int) (pkt : Packet)
    (m : Dict Nat Nat) (d2 : Nat)
    (hr : st.redirects = some m) (hd : dGet m pkt.dst = some d2)
    (hf : filterStage st pkt = .fpass) :
    effDest st pkt = d2 ∧
    (∀ r, dGet st.ftab d2 = some r → r.active = true →
      optTruthy st.policies = false →
      ∀ qs, putOut st.outports r.outlink (.pkt pkt) = some qs →
        processPacket st port pkt = .ok ({ st with outports := qs }, [])) ∧
    (dGet st.ftab d2 = none → 0 < st.outports.length →
      ∃ st', processPacket st port pkt = .ok (st', [.newRule d2 st.outports.length]) ∧
        st'.inqueue = st.inqueue ++ [(port, some pkt)] ∧
        st'.outports = st.outports ∧ st'.dropped = st.dropped) := by
  have hm : m.isEmpty = false := by
    cases m with
    | nil => simp [dGet] at hd
    | cons kv rest => rfl
  have heff : effDest st pkt = d2 := by
    unfold effDest
    rw [hr]
    simp [optTruthy, hm, hd]
  refine ⟨heff, ?_, ?_⟩
  · intro r hrule hact hpol qs hput
    unfold processPacket
    rw [hf]
    simp only [heff, hrule, hact, hpol, hput, if_true]
    simp
  · intro hdnone hn
    obtain ⟨st', h1, h2, h3, h4, h5⟩ :=
      processPacket_miss st port pkt hf (by rw [heff]; exact hdnone) hn
    rw [heff] at h1
    exact ⟨st', h1, h5, h3, h2⟩

/-- Witness for C7: with redirects `5 → 6` and `6 → 7` and rules for 6
(port 0, active) and 7 (port 1, active), a packet for destination 5 is
routed by the rule for 6 — the second redirect `6 → 7` is not followed —
and the packet itself is forwarded unchanged. -/
theorem redirect_single_hop_witness :
    effDest
        ⟨[], [[], []], [(6, ⟨0, true⟩), (7, ⟨1, true⟩)], none, none,
          some [(5, 6), (6, 7)], [], [], false, mkController []⟩
        ⟨1, 5, ⟨80, "o"⟩⟩ = 6 ∧
    processPacket
        ⟨[], [[], []], [(6, ⟨0, true⟩), (7, ⟨1, true⟩)], none, none,
          some [(5, 6), (6, 7)], [], [], false, mkController []⟩
        0 ⟨1, 5, ⟨80, "o"⟩⟩ =
      .ok (⟨[], [[.pkt ⟨1, 5, ⟨80, "o"⟩⟩], []], [(6, ⟨0, true⟩), (7, ⟨1, true⟩)],
            none, none, some [(5, 6), (6, 7)], [], [], false, mkController []⟩, []) := by
  have h := redirect_single_hop
    ⟨[], [[], []], [(6, ⟨0, true⟩), (7, ⟨1, true⟩)], none, none,
      some [(5, 6), (6, 7)], [], [], false, mkController []⟩
    0 ⟨1, 5, ⟨80, "o"⟩⟩ [(5, 6), (6, 7)] 6 rfl rfl rfl
  exact ⟨h.1, h.2.1 ⟨0, true⟩ rfl rfl rfl [[.pkt ⟨1, 5, ⟨80, "o"⟩⟩], []] rfl⟩
